import Mathlib

/-!
# Verification of the `http2-flash` routing core

A shallow embedding of the `Router`/`Http2Router` route-matching and
request-dispatch engine (source file with classes `Router` and
`Http2Router`):

* route compilation (`#parse` / `#addRoute`): a route key
  `"METHOD /path/:param"` has every `:identifier` occurrence replaced by the
  capture pattern `([^/]+)` and the parameter names collected left to right;
* route resolution (`#findAndParse`): the compiled (insertion-ordered) route
  table is scanned and for each key `new RegExp(key).exec(searchUrl)` is
  attempted; the first key whose regex matches wins; captured groups are
  bound positionally to the recorded parameter names;
* the 404/405 fallback (`#existsWithAnotherMethod`);
* the dispatch engine (`executeHandler`), including the global-middleware
  loop, the special treatment of the last global middleware, the
  route-handler loop, the `next(error)` signalling and the
  catch-emit-rethrow path, for both the HTTP/1 `Router` and the
  `Http2Router` (which differ only in the guard around the last
  global-middleware invocation);
* the constructor overloads and the event-listener registry
  (`removeEventListener` and the `#events` field).

JavaScript regular expressions are modelled on the fragment actually
produced by route compilation: in a compiled key the exact seven-character
substring `([^/]+)` is a capturing group ("one or more non-slash
characters", greedy with backtracking) and every other character is a
literal.  `RegExp.exec` is unanchored: it returns the match at the leftmost
starting offset at which the pattern matches.  Route keys are assumed free
of further regex metacharacters, which holds for all routes considered
here.
-/

namespace HttpFlash

/-- A token of a compiled route pattern: either a literal character or the
capturing group `([^/]+)`. -/
inductive Tok
  | lit (c : Char)
  | group
deriving DecidableEq, Repr

/-- Interpretation of a compiled key string as a token list, modelling
`new RegExp(key)` on the compiled-route fragment: the exact substring
`([^/]+)` becomes a capturing group, any other character a literal. -/
def toTokens : List Char → List Tok
  | '(' :: '[' :: '^' :: '/' :: ']' :: '+' :: ')' :: rest => Tok.group :: toTokens rest
  | c :: rest => Tok.lit c :: toTokens rest
  | [] => []

/-- Fuel-indexed matcher: does the token list match a *prefix* of the input,
and with which captures?  The group token matches one or more non-slash
characters, greedily and with backtracking (longest candidate first), which
is the JavaScript semantics of `([^/]+)` in a pattern without alternation.
Every recursive call consumes one token, so fuel `ts.length + 1` is always
sufficient. -/
def matchT : Nat → List Tok → List Char → Option (List (List Char))
  | 0, _, _ => none
  | _ + 1, [], _ => some []
  | _ + 1, Tok.lit _ :: _, [] => none
  | f + 1, Tok.lit c :: ts, x :: s => if x = c then matchT f ts s else none
  | f + 1, Tok.group :: ts, s =>
      let m := (s.takeWhile fun c => c ≠ '/').length
      (List.range m).reverse.findSome? fun j =>
        (matchT f ts (s.drop (j + 1))).map fun caps => s.take (j + 1) :: caps

/-- Prefix match of a token list against the input, with captures. -/
def matchToks (ts : List Tok) (s : List Char) : Option (List (List Char)) :=
  matchT (ts.length + 1) ts s

/-- `RegExp.exec`: unanchored search, leftmost successful offset first. -/
def execFind (ts : List Tok) : List Char → Option (List (List Char))
  | [] => matchToks ts []
  | c :: s' =>
    match matchToks ts (c :: s') with
    | some caps => some caps
    | none => execFind ts s'

/-- `new RegExp(pat).exec(input)` restricted to the compiled-route
fragment, returning just the list of captured groups. -/
def regexExec (pat input : String) : Option (List String) :=
  (execFind (toTokens pat.data) input.data).map fun caps => caps.map String.mk

/-- `new RegExp(pat).test(input)`. -/
def regexTest (pat input : String) : Bool :=
  (regexExec pat input).isSome

/-- JavaScript `\w`: ASCII letters, digits and underscore. -/
def isWordChar (c : Char) : Bool :=
  c.isAlpha || c.isDigit || c = '_'

/-- `method.toUpperCase()` on ASCII method names. -/
def jsToUpper (s : String) : String :=
  String.mk (s.data.map Char.toUpper)

/-- Split on the space character, as `line.split(' ')` does. -/
def splitSpaceGo : List Char → List Char → List (List Char)
  | [], cur => [cur.reverse]
  | ' ' :: rest, cur => cur.reverse :: splitSpaceGo rest []
  | c :: rest, cur => splitSpaceGo rest (c :: cur)

/-- `s.split(' ')`. -/
def jsSplitSpace (s : String) : List String :=
  (splitSpaceGo s.data []).map String.mk

/-- The replacement text for one `:name` occurrence: the source of
`FIND_ROUTE_REGEX`, i.e. `([^/]+)`. -/
def groupSrc : List Char :=
  '(' :: '[' :: '^' :: '/' :: ']' :: '+' :: ')' :: []

/-- Fuel-indexed scan of a route key, modelling simultaneously
`key.replaceAll(ROUTE_PARAM_REGEX, FIND_ROUTE_REGEX.source)` and
`key.match(ROUTE_PARAM_REGEX)` for `ROUTE_PARAM_REGEX = /:(\w+)/g`:
each `:` followed by one or more word characters is replaced by `([^/]+)`
and its name (without the colon) is collected, left to right.  Every step
consumes at least one character, so fuel `s.length + 1` suffices. -/
def scanP : Nat → List Char → List Char × List String
  | 0, s => (s, [])
  | _ + 1, [] => ([], [])
  | f + 1, ':' :: rest =>
      let name := rest.takeWhile isWordChar
      if name.length = 0 then
        let pr := scanP f rest
        (':' :: pr.1, pr.2)
      else
        let pr := scanP f (rest.drop name.length)
        (groupSrc ++ pr.1, String.mk name :: pr.2)
  | f + 1, c :: rest =>
      let pr := scanP f rest
      (c :: pr.1, pr.2)

/-- `Router.#parse` on a single key: the compiled pattern string and the
ordered parameter names. -/
def parseKey (key : String) : String × List String :=
  let pr := scanP (key.data.length + 1) key.data
  (String.mk pr.1, pr.2)

/-- A compiled route table entry (`EnrichedHandler`): the ordered handler
list and the ordered parameter names. -/
structure EnrichedHandler (H : Type) where
  handlers : List H
  params : List String
deriving DecidableEq, Repr

/-- Replace the value of a pair when its key is `k`. -/
def overwriteKey {A : Type} (k : String) (v : A) (p : String × A) : String × A :=
  if p.1 = k then (k, v) else p

/-- `Map.set` semantics of an insertion-ordered map modelled as a list of
key/value pairs: overwriting an existing key keeps its original position,
a new key is appended. -/
def mapSet {A : Type} (m : List (String × A)) (k : String) (v : A) : List (String × A) :=
  if m.any fun p => p.1 = k then m.map (overwriteKey k v)
  else m ++ [(k, v)]

/-- `new Map(pairs)`: insert the pairs left to right with `Map.set`. -/
def mapOfList {A : Type} (l : List (String × A)) : List (String × A) :=
  l.foldl (fun m kv => mapSet m kv.1 kv.2) []

/-- Lookup in an insertion-ordered map (`Map.get`): the value of the first
pair with the key. -/
def mapGet {A : Type} : List (String × A) → String → Option A
  | [], _ => none
  | (k0, v0) :: t, k => if k0 = k then some v0 else mapGet t k

/-- Router options (`RouterProps`); a field is `none` when absent from the
options object. -/
structure RouterProps where
  strict : Option Bool
  verbose : Option Bool
deriving DecidableEq, Repr

/-- `DEFAULT_OPTIONS = { verbose: true, strict: false }`. -/
def defaultOptions : RouterProps :=
  ⟨some false, some true⟩

/-- `Object.assign(base, o)`: fields present in `o` override `base`. -/
def mergeOptions (base o : RouterProps) : RouterProps :=
  ⟨match o.strict with | some b => some b | none => base.strict,
   match o.verbose with | some b => some b | none => base.verbose⟩

/-- The state of a `Router` (or `Http2Router`; the two classes are
line-for-line identical except inside `executeHandler`), generic in the
handler type `H`.  `pre` is the `#prefix` field, `baseRoutes` the raw
`#baseRoutes` map, `enrichedRoutes` the compiled `#enrichedRoutes` map,
`defaultHandlers` the global middleware list.  `events` models the
`#events` field, which is *declared without an initializer and never
assigned in the constructor*: the JavaScript value `undefined` is `none`,
an actual subscription array is `some` of a list of
(event name, callback signature) pairs. -/
structure Router (H : Type) where
  pre : String
  baseRoutes : List (String × List H)
  enrichedRoutes : List (String × EnrichedHandler H)
  defaultHandlers : List H
  options : RouterProps
  events : Option (List (String × String))
deriving DecidableEq, Repr

/-- The first constructor argument of `Router` as the code discriminates
it: a string prefix, an array of routers, or a plain options object. -/
inductive CtorArg (H : Type)
  | strArg (s : String)
  | arrArg (rs : List (Router H))
  | objArg (o : RouterProps)

/-- JavaScript truthiness of the first constructor argument: `undefined`
and the empty string are falsy; arrays and objects are truthy. -/
def truthyArg {H : Type} : Option (CtorArg H) → Bool
  | none => false
  | some (CtorArg.strArg s) => !(s == "")
  | some (CtorArg.arrArg _) => true
  | some (CtorArg.objArg _) => true

/-- Errors thrown by the modelled JavaScript code.  `typeError` stands for
the `TypeError` raised when a non-function (`undefined`) is invoked or a
property of `undefined` is read; `referenceError` for the `ReferenceError`
raised when a derived-class constructor returns before calling `super()`;
`custom n` is an arbitrary error value produced by user handlers. -/
inductive JsErr
  | typeError
  | referenceError
  | custom (n : Nat)
deriving DecidableEq, Repr

/-- `new Router(x, options)`.  The first line of the constructor body is
`if(!x && !options) return;` — in a class that `extends EventEmitter`,
returning before the `super()` call throws a `ReferenceError`, so that
branch is an error outcome, not a constructed router.  Otherwise the code
dispatches on the shape of `x` exactly as the source does; in every
successful branch the `#events` field is left `undefined` (`none`). -/
def constructRouter {H : Type} (x : Option (CtorArg H)) (options : Option RouterProps) :
    Except JsErr (Router H) :=
  if truthyArg x = false && options.isNone then Except.error JsErr.referenceError
  else
    match x with
    | some (CtorArg.strArg s) =>
        Except.ok ⟨s, [], [], [], mergeOptions defaultOptions (options.getD ⟨none, none⟩), none⟩
    | some (CtorArg.arrArg rs) =>
        Except.ok ⟨"",
          mapOfList ((rs.map fun r => r.baseRoutes).flatten),
          mapOfList ((rs.map fun r => r.enrichedRoutes).flatten),
          [], mergeOptions defaultOptions (options.getD ⟨none, none⟩), none⟩
    | some (CtorArg.objArg ob) =>
        Except.ok ⟨"", [], [], [], mergeOptions defaultOptions ob, none⟩
    | none =>
        Except.ok ⟨"", [], [], [], mergeOptions defaultOptions ⟨none, none⟩, none⟩

/-- `Router.#addRoute(method, path, handlers)`: build the registration key
`"METHOD <prefix><path>"` (with the path dropped when it is exactly `/`),
store the raw handler list, compile the key and store the enriched entry. -/
def addRoute {H : Type} (r : Router H) (method path : String) (handlers : List H) : Router H :=
  let parsedRoute := jsToUpper method ++ " " ++ r.pre ++ (if path = "/" then "" else path)
  let pk := parseKey parsedRoute
  { r with
    baseRoutes := mapSet r.baseRoutes parsedRoute handlers
    enrichedRoutes := mapSet r.enrichedRoutes pk.1 ⟨handlers, pk.2⟩ }

/-- A bound-parameters dictionary, insertion ordered. -/
abbrev Params : Type := List (String × String)

/-- The parameter dictionary built by `#findAndParse` from the captures:
`matches.slice(1).reduce((acc, value, index) => { acc[params[index]] = value; ... })`.
Capture `i` is assigned to key `paramNames[i]`; when there are more
captures than names, the JavaScript key is the string `"undefined"`. -/
def bindParams (names : List String) (caps : List String) : Params :=
  caps.enum.foldl (fun acc iv => mapSet acc (names.getD iv.1 "undefined") iv.2) []

/-- The scan inside `Router.#findAndParse`: try the compiled entries in
insertion order, return the first whose pattern matches the search line,
together with the positionally bound parameters. -/
def findList {H : Type} : List (String × EnrichedHandler H) → String →
    Option (List H × Params)
  | [], _ => none
  | (p, eh) :: rest, url =>
    match regexExec p url with
    | some caps => some (eh.handlers, bindParams eh.params caps)
    | none => findList rest url

/-- `Router.#findAndParse(url)`. -/
def findAndParse {H : Type} (r : Router H) (url : String) : Option (List H × Params) :=
  findList r.enrichedRoutes url

/-- `Router.#existsWithAnotherMethod(url)`: for every compiled key, take
the part after the first space (`r.split(' ')[1]`) and test it as a regex
against the full search line. -/
def existsWithAnotherMethod {H : Type} (r : Router H) (url : String) : Bool :=
  r.enrichedRoutes.any fun kv =>
    regexTest ((jsSplitSpace kv.1).getD 1 "undefined") url

/-- An observable action performed on the response object. -/
inductive RAct
  | writeHead (status : Nat) (contentType : String)
  | setHeader (name value : String)
  | write (body : String)
  | statusSet (code : Nat)
  | endResp
deriving DecidableEq, Repr

/-- A lifecycle event emitted by the router.  `error e` covers both
`this.emit('error', error)` from a `next(error)` call (payload: the raw
error) and `this.emit('error', new ErrorEvent(err))` from the catch block
(payload: an `ErrorEvent` whose target is `err`); in both cases the event
carries the error `e`. -/
inductive Ev
  | error (e : JsErr)
  | notFound
  | methodNotAllowed
deriving DecidableEq, Repr

/-- The observable behaviour of one handler invocation: the response
actions it performs, the arguments of its calls to the `next` continuation
in order (`none` = `next()`, `some e` = `next(e)`), and whether it finally
throws / rejects (`thrown = some e`) or returns normally. -/
structure HB where
  acts : List RAct
  nexts : List (Option JsErr)
  thrown : Option JsErr
deriving DecidableEq, Repr

/-- Handler semantics: what a handler does, as a function of the bound
route parameters it can read from the augmented request. -/
def Sem (H : Type) : Type := H → Params → HB

/-- The `error` events emitted by the `next` closure during one handler
invocation: one per `next(e)` call, in call order (`next()` emits nothing). -/
def nextErrors (b : HB) : List Ev :=
  b.nexts.filterMap fun o => o.map Ev.error

/-- `handleNextRoute` / `handleRoutes` after one handler invocation: the
flag is set iff some `next` call carried no error. -/
def calledNext (b : HB) : Bool :=
  b.nexts.any Option.isNone

/-- The trace accumulated while running a dispatch: emitted events,
response actions, and the handlers invoked so far, all in order. -/
structure RunAcc (H : Type) where
  events : List Ev
  racts : List RAct
  executed : List H
deriving DecidableEq, Repr

/-- Record one handler invocation in the trace. -/
def accAdd {H : Type} (acc : RunAcc H) (h : H) (b : HB) : RunAcc H :=
  ⟨acc.events ++ nextErrors b, acc.racts ++ b.acts, acc.executed ++ [h]⟩

/-- One `for`-loop over a handler list with the per-iteration
`if(!handleNextRoute) break;`: run handlers in order; a handler that
throws aborts the whole dispatch (second component `some e`); a handler
that returns without calling `next()` breaks the loop. -/
def runSeq {H : Type} (sem : Sem H) (ps : Params) :
    List H → RunAcc H → RunAcc H × Option JsErr
  | [], acc => (acc, none)
  | h :: rest, acc =>
    let b := sem h ps
    let acc' := accAdd acc h b
    match b.thrown with
    | some e => (acc', some e)
    | none => if calledNext b then runSeq sem ps rest acc' else (acc', none)

/-- The result of one `executeHandler` call: the emitted events, the
response actions, the invoked handlers, and `rejected = some e` when the
returned promise rejects with `e` (`none` when it resolves). -/
structure DispatchResult (H : Type) where
  events : List Ev
  racts : List RAct
  executed : List H
  rejected : Option JsErr
deriving DecidableEq, Repr

/-- The catch block: `this.emit('error', new ErrorEvent(err)); throw err;`. -/
def mkAbort {H : Type} (acc : RunAcc H) (e : JsErr) : DispatchResult H :=
  ⟨acc.events ++ [Ev.error e], acc.racts, acc.executed, some e⟩

/-- Normal resolution of the dispatch promise. -/
def mkDone {H : Type} (acc : RunAcc H) : DispatchResult H :=
  ⟨acc.events, acc.racts, acc.executed, none⟩

/-- The route-handler loop (phase 3 of `executeHandler`): run the route
handlers with break-on-stop on top of the trace accumulated so far; a
throw lands in the catch block. -/
def phase3 {H : Type} (sem : Sem H) (ps : Params) (acc : RunAcc H) (routes : List H) :
    DispatchResult H :=
  let r3 := runSeq sem ps routes acc
  match r3.2 with
  | some e => mkAbort r3.1 e
  | none => mkDone r3.1

/-- The found-route branch of HTTP/1 `Router.executeHandler`:
1. the `for` loop runs `defaultHandlers[0 .. length-2]` with break-on-stop;
2. `if(this.#defaultHandlers.length - 1 > -1)` the *last* default handler
   is then invoked unconditionally (even after a break in step 1) and its
   `next()` decides `handleRoutes`; with no default handlers,
   `handleRoutes` is set to `true` directly;
3. if `handleRoutes`, the route handlers run with break-on-stop.
A throw anywhere lands in the catch block (`mkAbort`). -/
def dispatchFound {H : Type} (sem : Sem H) (ps : Params) (defaults routes : List H) :
    DispatchResult H :=
  let r1 := runSeq sem ps (defaults.take (defaults.length - 1)) ⟨[], [], []⟩
  match r1.2 with
  | some e => mkAbort r1.1 e
  | none =>
    match defaults.getLast? with
    | some dl =>
      let b := sem dl ps
      let acc2 := accAdd r1.1 dl b
      match b.thrown with
      | some e => mkAbort acc2 e
      | none =>
        if calledNext b then phase3 sem ps acc2 routes
        else mkDone acc2
    | none => phase3 sem ps r1.1 routes

/-- The found-route branch of `Http2Router.executeHandler`.  It is the
HTTP/1 code *without* the `length - 1 > -1` guard: with an empty
`defaultHandlers` list it evaluates
`this.#defaultHandlers[this.#defaultHandlers.length - 1]`, i.e. index
`-1`, which is `undefined`, and invokes it — a `TypeError` that lands in
the catch block before any route handler runs. -/
def dispatchFound2 {H : Type} (sem : Sem H) (ps : Params) (defaults routes : List H) :
    DispatchResult H :=
  let r1 := runSeq sem ps (defaults.take (defaults.length - 1)) ⟨[], [], []⟩
  match r1.2 with
  | some e => mkAbort r1.1 e
  | none =>
    match defaults.getLast? with
    | some dl =>
      let b := sem dl ps
      let acc2 := accAdd r1.1 dl b
      match b.thrown with
      | some e => mkAbort acc2 e
      | none =>
        if calledNext b then phase3 sem ps acc2 routes
        else mkDone acc2
    | none => mkAbort r1.1 JsErr.typeError

/-- The not-found branch shared by both routers: query
`#existsWithAnotherMethod`; on `true` emit `405`, write head 405 with
`text/plain` and end the response; otherwise the same with `404`. -/
def dispatchNotFound {H : Type} (r : Router H) (searchUrl : String) : DispatchResult H :=
  if existsWithAnotherMethod r searchUrl then
    ⟨[Ev.methodNotAllowed], [RAct.writeHead 405 "text/plain", RAct.endResp], [], none⟩
  else
    ⟨[Ev.notFound], [RAct.writeHead 404 "text/plain", RAct.endResp], [], none⟩

/-- HTTP/1 `Router.executeHandler(request, response)` for a request with
the given method and url: build the search line
`` `${method.toUpperCase()} ${url}` ``, resolve it, and either run the
handler chain on the bound parameters or take the 404/405 branch. -/
def executeHandler {H : Type} (sem : Sem H) (r : Router H) (method url : String) :
    DispatchResult H :=
  let searchUrl := jsToUpper method ++ " " ++ url
  match findAndParse r searchUrl with
  | some fr => dispatchFound sem fr.2 r.defaultHandlers fr.1
  | none => dispatchNotFound r searchUrl

/-- `Http2Router.executeHandler(request, response)`; identical to the
HTTP/1 version except for the unguarded last-default-handler invocation. -/
def executeHandler2 {H : Type} (sem : Sem H) (r : Router H) (method url : String) :
    DispatchResult H :=
  let searchUrl := jsToUpper method ++ " " ++ url
  match findAndParse r searchUrl with
  | some fr => dispatchFound2 sem fr.2 r.defaultHandlers fr.1
  | none => dispatchNotFound r searchUrl

/-- `Router.removeEventListener(event, callback)`: compute the callback's
signature, `findIndex` a subscription with the same event and signature in
`this.#events`, return silently when none is found, otherwise unsubscribe
and splice it out.  Since the `#events` field is declared without an
initializer and no constructor path assigns it, reading
`this.#events.findIndex` on `undefined` throws a `TypeError`. -/
def removeEventListener {H : Type} (r : Router H) (event sig : String) :
    Except JsErr (Router H) :=
  match r.events with
  | none => Except.error JsErr.typeError
  | some l =>
    match l.findIdx? fun s => s.1 == event && s.2 == sig with
    | none => Except.ok r
    | some i => Except.ok { r with events := some (l.eraseIdx i) }

/-- `Router.use(...)` arguments: a plain global handler or a nested router. -/
inductive UseArg (H : Type)
  | handler (h : H)
  | router (r : Router H)

/-- `Router.use(...handlers)`: router arguments have their compiled and raw
route entries copied into this router's maps with `Map.set` (overwriting
on key collision); plain handler arguments are pushed onto
`defaultHandlers` in order. -/
def use {H : Type} (r : Router H) (args : List (UseArg H)) : Router H :=
  args.foldl
    (fun acc a =>
      match a with
      | UseArg.router c =>
        { acc with
          enrichedRoutes := c.enrichedRoutes.foldl (fun m kv => mapSet m kv.1 kv.2) acc.enrichedRoutes
          baseRoutes := c.baseRoutes.foldl (fun m kv => mapSet m kv.1 kv.2) acc.baseRoutes }
      | UseArg.handler h =>
        { acc with defaultHandlers := acc.defaultHandlers ++ [h] })
    r

/-! ## Concrete instances

Handlers are identified by natural numbers; a `Sem Nat` assigns each its
behaviour.  `emptyR` is the state of an empty router (as produced for
example by `new Router('')` with a subsequently irrelevant options object,
or as the starting state before registrations). -/

/-- An empty router state: no routes, no middleware, default options,
uninitialized `#events`. -/
def emptyR : Router Nat :=
  ⟨"", [], [], [], defaultOptions, none⟩

/-- A semantics in which every handler just calls `next()`. -/
def semZ : Sem Nat := fun _ _ => ⟨[], [none], none⟩

/-- A router with only `POST /items` registered (handler `1`). -/
def rPost : Router Nat := addRoute emptyR "POST" "/items" [1]

/-- A router with only the literal route `GET /items` registered
(handler `5`). -/
def rItems : Router Nat := addRoute emptyR "GET" "/items" [5]

/-- A router with only `GET /a` registered (handler `3`) and no global
middleware. -/
def rA : Router Nat := addRoute emptyR "GET" "/a" [3]

/-- Route `GET /a` (handler `3`) behind two global middlewares `0` and
`1`, added with `use`. -/
def rC2 : Router Nat :=
  use (addRoute emptyR "GET" "/x" [2]) [UseArg.handler 0, UseArg.handler 1]

/-- Middleware `0` calls `next(custom 7)`; every other handler calls
`next()`. -/
def semC2 : Sem Nat := fun h _ =>
  if h = 0 then ⟨[], [some (JsErr.custom 7)], none⟩ else ⟨[], [none], none⟩

/-- Middleware `1` (the last global middleware of `rC2`) calls
`next(custom 8)`; every other handler calls `next()`. -/
def semC2b : Sem Nat := fun h _ =>
  if h = 1 then ⟨[], [some (JsErr.custom 8)], none⟩ else ⟨[], [none], none⟩

/-- Handler `3` throws `custom 9`; every other handler calls `next()`. -/
def sem6 : Sem Nat := fun h _ =>
  if h = 3 then ⟨[], [], some (JsErr.custom 9)⟩ else ⟨[], [none], none⟩

/-- Handler `3` calls `next(custom 5)`; every other handler calls
`next()`. -/
def semNx5 : Sem Nat := fun h _ =>
  if h = 3 then ⟨[], [some (JsErr.custom 5)], none⟩ else ⟨[], [none], none⟩

/-- A parent router registering `GET /p` with handler `1`. -/
def rP7 : Router Nat := addRoute emptyR "GET" "/p" [1]

/-- A child router registering `GET /p` with handler `7` (colliding with
the parent) and `GET /c` with handler `8`. -/
def rC7 : Router Nat :=
  addRoute (addRoute emptyR "GET" "/p" [7]) "GET" "/c" [8]

/-- The literal route `GET /items/special` (handler `1`) registered
*before* the parameterized route `GET /items/:id` (handler `2`). -/
def rTwo : Router Nat :=
  addRoute (addRoute emptyR "GET" "/items/special" [1]) "GET" "/items/:id" [2]

/-- The same two overlapping routes registered in the opposite order. -/
def rTwo' : Router Nat :=
  addRoute (addRoute emptyR "GET" "/items/:id" [2]) "GET" "/items/special" [1]

/-- `JSON.stringify({id: v})` for a string or absent `v` (a string value
needing no JSON escaping; an absent property is omitted). -/
def jsonIdBody : Option String → String
  | some v => "\x7b\"id\":\"" ++ v ++ "\"\x7d"
  | none => "\x7b\x7d"

/-- The handler of the `GET /users/:id` scenario: it replies
`response.json({id: request.params.id})`, i.e. sets the JSON content type
(headers not yet sent) and writes the serialized body; it does not call
`next`. -/
def sem4 : Sem Nat := fun _ ps =>
  ⟨[RAct.setHeader "Content-Type" "application/json; charset=UTF-8",
    RAct.write (jsonIdBody (mapGet ps "id"))], [], none⟩

/-- A router with only `GET /users/:id` registered (handler `9`). -/
def r4 : Router Nat := addRoute emptyR "GET" "/users/:id" [9]

/-! ## Chain-execution lemmas -/

/-- A handler invocation that lets the chain continue: it calls `next()`
(so the continue flag is set), signals no error through `next`, and
returns normally. -/
def continuesCleanly (b : HB) : Prop :=
  nextErrors b = [] ∧ calledNext b = true ∧ b.thrown = none

/-- The trace left by a handler list in which every handler ran. -/
def cleanFold {H : Type} (sem : Sem H) (ps : Params) (acc : RunAcc H) (hs : List H) :
    RunAcc H :=
  hs.foldl (fun a h => accAdd a h (sem h ps)) acc

theorem cleanFold_nil {H : Type} (sem : Sem H) (ps : Params) (acc : RunAcc H) :
    cleanFold sem ps acc [] = acc := rfl

theorem cleanFold_append {H : Type} (sem : Sem H) (ps : Params) (acc : RunAcc H)
    (l1 l2 : List H) :
    cleanFold sem ps acc (l1 ++ l2) = cleanFold sem ps (cleanFold sem ps acc l1) l2 :=
  List.foldl_append ..

theorem cleanFold_executed {H : Type} (sem : Sem H) (ps : Params) (acc : RunAcc H)
    (hs : List H) :
    (cleanFold sem ps acc hs).executed = acc.executed ++ hs := by
  induction hs generalizing acc with
  | nil => simp [cleanFold]
  | cons h t ih =>
    simp only [cleanFold, List.foldl_cons] at ih ⊢
    rw [ih]
    simp [accAdd]

theorem cleanFold_events {H : Type} (sem : Sem H) (ps : Params) (acc : RunAcc H)
    (hs : List H) (hcl : ∀ h ∈ hs, nextErrors (sem h ps) = []) :
    (cleanFold sem ps acc hs).events = acc.events := by
  induction hs generalizing acc with
  | nil => simp [cleanFold]
  | cons h t ih =>
    simp only [cleanFold, List.foldl_cons] at ih ⊢
    rw [ih _ fun x hx => hcl x (List.mem_cons_of_mem _ hx)]
    simp [accAdd, hcl h (List.mem_cons_self h t)]

theorem runSeq_clean_front {H : Type} (sem : Sem H) (ps : Params) (hs rest : List H)
    (acc : RunAcc H) (hcl : ∀ h ∈ hs, continuesCleanly (sem h ps)) :
    runSeq sem ps (hs ++ rest) acc = runSeq sem ps rest (cleanFold sem ps acc hs) := by
  induction hs generalizing acc with
  | nil => simp [cleanFold]
  | cons h t ih =>
    obtain ⟨-, hnext, hthr⟩ := hcl h (List.mem_cons_self h t)
    simp only [List.cons_append, runSeq, hthr, hnext, if_true, List.append_eq]
    rw [ih _ fun x hx => hcl x (List.mem_cons_of_mem _ hx)]
    rfl

theorem runSeq_all_clean {H : Type} (sem : Sem H) (ps : Params) (hs : List H)
    (acc : RunAcc H) (hcl : ∀ h ∈ hs, continuesCleanly (sem h ps)) :
    runSeq sem ps hs acc = (cleanFold sem ps acc hs, none) := by
  have := runSeq_clean_front sem ps hs [] acc hcl
  simpa [runSeq] using this

theorem runSeq_throw {H : Type} (sem : Sem H) (ps : Params) (hs1 : List H) (he : H)
    (rest : List H) (acc : RunAcc H) (e : JsErr)
    (hcl : ∀ h ∈ hs1, continuesCleanly (sem h ps)) (hthr : (sem he ps).thrown = some e) :
    runSeq sem ps (hs1 ++ he :: rest) acc =
      (accAdd (cleanFold sem ps acc hs1) he (sem he ps), some e) := by
  rw [runSeq_clean_front sem ps hs1 (he :: rest) acc hcl]
  simp [runSeq, hthr]

theorem runSeq_stop {H : Type} (sem : Sem H) (ps : Params) (hs1 : List H) (he : H)
    (rest : List H) (acc : RunAcc H)
    (hcl : ∀ h ∈ hs1, continuesCleanly (sem h ps))
    (hthr : (sem he ps).thrown = none) (hnx : calledNext (sem he ps) = false) :
    runSeq sem ps (hs1 ++ he :: rest) acc =
      (accAdd (cleanFold sem ps acc hs1) he (sem he ps), none) := by
  rw [runSeq_clean_front sem ps hs1 (he :: rest) acc hcl]
  simp [runSeq, hthr, hnx]

/-- When every global middleware continues cleanly, the HTTP/1 dispatch of
a found route reduces to the route-handler loop run on top of the
middleware trace — including the no-middleware case, where
`handleRoutes` is set to `true` directly. -/
theorem dispatchFound_clean_defaults {H : Type} (sem : Sem H) (ps : Params)
    (defaults routes : List H)
    (hcl : ∀ d ∈ defaults, continuesCleanly (sem d ps)) :
    dispatchFound sem ps defaults routes =
      phase3 sem ps (cleanFold sem ps ⟨[], [], []⟩ defaults) routes := by
  rcases List.eq_nil_or_concat defaults with h | ⟨ds, d, h⟩
  · subst h
    rfl
  · rw [List.concat_eq_append] at h
    subst h
    have htake : (ds ++ [d]).take ((ds ++ [d]).length - 1) = ds := by
      simp [List.take_left]
    have hlast : (ds ++ [d]).getLast? = some d := List.getLast?_concat ..
    obtain ⟨-, hnext, hthr⟩ := hcl d (by simp)
    have hds : ∀ x ∈ ds, continuesCleanly (sem x ps) :=
      fun x hx => hcl x (by simp [hx])
    simp only [dispatchFound, htake, hlast, runSeq_all_clean sem ps ds _ hds, hthr,
      hnext, if_true, cleanFold_append]
    rfl

/-! ## Route-table lemmas -/

theorem findList_of_prefix_no_match {H : Type} (preL postL : List (String × EnrichedHandler H))
    (url p : String) (eh : EnrichedHandler H) (caps : List String)
    (hpre : ∀ q ∈ preL, regexExec q.1 url = none)
    (hm : regexExec p url = some caps) :
    findList (preL ++ (p, eh) :: postL) url =
      some (eh.handlers, bindParams eh.params caps) := by
  induction preL with
  | nil => simp [findList, hm]
  | cons q t ih =>
    have hq := hpre q (List.mem_cons_self q t)
    simp only [List.cons_append, findList, hq]
    exact ih fun x hx => hpre x (List.mem_cons_of_mem _ hx)

theorem findList_of_unique_match {H : Type} (l : List (String × EnrichedHandler H))
    (url p : String) (eh : EnrichedHandler H) (caps : List String)
    (hmem : (p, eh) ∈ l) (hm : regexExec p url = some caps)
    (hothers : ∀ q ∈ l, q ≠ (p, eh) → regexExec q.1 url = none) :
    findList l url = some (eh.handlers, bindParams eh.params caps) := by
  induction l with
  | nil => cases hmem
  | cons q t ih =>
    by_cases hq : q = (p, eh)
    · subst hq
      simp [findList, hm]
    · have hqn := hothers q (List.mem_cons_self q t) hq
      simp only [findList, hqn]
      have hmem' : (p, eh) ∈ t := by
        rcases List.mem_cons.mp hmem with h | h
        · exact absurd h.symm hq
        · exact h
      exact ih hmem' fun x hx hne => hothers x (List.mem_cons_of_mem _ hx) hne

theorem mapGet_cons_self {A : Type} (k : String) (v : A) (t : List (String × A)) :
    mapGet ((k, v) :: t) k = some v := by
  simp [mapGet]

theorem mapGet_cons_ne {A : Type} (k k' : String) (v : A) (t : List (String × A))
    (hne : k ≠ k') :
    mapGet ((k, v) :: t) k' = mapGet t k' := by
  simp [mapGet, hne]

theorem overwriteKey_pos {A : Type} (k : String) (v : A) (p : String × A) (h : p.1 = k) :
    overwriteKey k v p = (k, v) := by
  simp [overwriteKey, h]

theorem overwriteKey_neg {A : Type} (k : String) (v : A) (p : String × A) (h : ¬p.1 = k) :
    overwriteKey k v p = p := by
  simp [overwriteKey, h]

theorem mapGet_map_overwrite {A : Type} (m : List (String × A)) (k : String) (v : A) :
    mapGet (m.map (overwriteKey k v)) k =
      if m.any fun p => p.1 = k then some v else none := by
  induction m with
  | nil => rfl
  | cons q t ih =>
    obtain ⟨q1, q2⟩ := q
    by_cases hq : q1 = k
    · rw [List.map_cons, overwriteKey_pos k v (q1, q2) hq, mapGet_cons_self]
      have ha : (((q1, q2) :: t).any fun p => p.1 = k) = true := by
        simp [hq]
      rw [if_pos ha]
    · rw [List.map_cons, overwriteKey_neg k v (q1, q2) hq, mapGet_cons_ne _ _ _ _ hq, ih]
      have hd : decide (q1 = k) = false := by simp [hq]
      rw [List.any_cons]
      rw [hd, Bool.false_or]

theorem mapGet_map_overwrite_ne {A : Type} (m : List (String × A)) (k k' : String) (v : A)
    (hne : k' ≠ k) :
    mapGet (m.map (overwriteKey k v)) k' = mapGet m k' := by
  induction m with
  | nil => rfl
  | cons q t ih =>
    obtain ⟨q1, q2⟩ := q
    by_cases hq : q1 = k
    · have h2 : ¬q1 = k' := fun h => hne (h.symm.trans hq)
      rw [List.map_cons, overwriteKey_pos k v (q1, q2) hq,
        mapGet_cons_ne _ _ _ _ (fun h => hne h.symm), mapGet_cons_ne _ _ _ _ h2]
      exact ih
    · by_cases hq' : q1 = k'
      · subst hq'
        rw [List.map_cons, overwriteKey_neg k v (q1, q2) hq, mapGet_cons_self,
          mapGet_cons_self]
      · rw [List.map_cons, overwriteKey_neg k v (q1, q2) hq,
          mapGet_cons_ne _ _ _ _ hq', mapGet_cons_ne _ _ _ _ hq']
        exact ih

theorem mapGet_append_single_ne {A : Type} (m : List (String × A)) (k k' : String) (v : A)
    (hne : k' ≠ k) :
    mapGet (m ++ [(k, v)]) k' = mapGet m k' := by
  induction m with
  | nil =>
    have h2 : ¬k = k' := fun h => hne h.symm
    simp [mapGet, h2]
  | cons q t ih =>
    obtain ⟨q1, q2⟩ := q
    by_cases hq' : q1 = k'
    · subst hq'
      simp [mapGet]
    · simp [mapGet, hq', ih]

theorem mapGet_append_self {A : Type} (m : List (String × A)) (k : String) (v : A)
    (hnm : ∀ p ∈ m, p.1 ≠ k) :
    mapGet (m ++ [(k, v)]) k = some v := by
  induction m with
  | nil => simp [mapGet]
  | cons q t ih =>
    obtain ⟨q1, q2⟩ := q
    have hq := hnm (q1, q2) (List.mem_cons_self _ t)
    simp only [List.cons_append, mapGet, if_neg hq]
    exact ih fun p hp => hnm p (List.mem_cons_of_mem _ hp)

theorem mapGet_mapSet_self {A : Type} (m : List (String × A)) (k : String) (v : A) :
    mapGet (mapSet m k v) k = some v := by
  unfold mapSet
  by_cases h : m.any fun p => p.1 = k
  · rw [if_pos h, mapGet_map_overwrite, if_pos h]
  · rw [if_neg h]
    refine mapGet_append_self m k v fun p hp hpk => ?hne
    exact h (List.any_eq_true.mpr ⟨p, hp, by simp [hpk]⟩)

theorem mapGet_mapSet_ne {A : Type} (m : List (String × A)) (k k' : String) (v : A)
    (hne : k' ≠ k) :
    mapGet (mapSet m k v) k' = mapGet m k' := by
  unfold mapSet
  by_cases h : m.any fun p => p.1 = k
  · rw [if_pos h]
    exact mapGet_map_overwrite_ne m k k' v hne
  · rw [if_neg h]
    exact mapGet_append_single_ne m k k' v hne

theorem mapGet_foldl_set_of_fresh {A : Type} (l : List (String × A))
    (base : List (String × A)) (k : String)
    (hfresh : ∀ kv ∈ l, kv.1 ≠ k) :
    mapGet (l.foldl (fun m kv => mapSet m kv.1 kv.2) base) k = mapGet base k := by
  induction l generalizing base with
  | nil => rfl
  | cons kv t ih =>
    rw [List.foldl_cons, ih _ fun x hx => hfresh x (List.mem_cons_of_mem _ hx),
      mapGet_mapSet_ne _ _ _ _ (Ne.symm (hfresh kv (List.mem_cons_self kv t)))]

theorem mapGet_foldl_set {A : Type} (l : List (String × A)) (k : String) (v : A)
    (hnd : (l.map Prod.fst).Nodup) (hget : mapGet l k = some v) (base : List (String × A)) :
    mapGet (l.foldl (fun m kv => mapSet m kv.1 kv.2) base) k = some v := by
  induction l generalizing base with
  | nil => simp [mapGet] at hget
  | cons kv t ih =>
    obtain ⟨k0, v0⟩ := kv
    rw [List.map_cons] at hnd
    by_cases hk : k0 = k
    · subst hk
      rw [mapGet_cons_self] at hget
      injection hget with hv
      subst hv
      rw [List.foldl_cons]
      have hfresh : ∀ x ∈ t, x.1 ≠ k0 := by
        intro x hx hxk
        exact (List.nodup_cons.mp hnd).1 (List.mem_map.mpr ⟨x, hx, hxk⟩)
      rw [mapGet_foldl_set_of_fresh t _ k0 hfresh, mapGet_mapSet_self]
    · rw [mapGet_cons_ne _ _ _ _ hk] at hget
      rw [List.foldl_cons]
      exact ih (List.nodup_cons.mp hnd).2 hget _

/-! ## Parameter-binding lemmas -/

theorem mapSet_eq_append {A : Type} (m : List (String × A)) (k : String) (v : A)
    (hfresh : ∀ p ∈ m, p.1 ≠ k) :
    mapSet m k v = m ++ [(k, v)] := by
  unfold mapSet
  rw [if_neg]
  intro hany
  obtain ⟨p, hp, hpk⟩ := List.any_eq_true.mp hany
  exact hfresh p hp (by simpa using hpk)

theorem foldl_mapSet_fresh {A : Type} (l : List (String × A)) (acc : List (String × A))
    (hnd : (l.map Prod.fst).Nodup) (hfresh : ∀ kv ∈ l, ∀ p ∈ acc, p.1 ≠ kv.1) :
    l.foldl (fun a kv => mapSet a kv.1 kv.2) acc = acc ++ l := by
  induction l generalizing acc with
  | nil => simp
  | cons kv t ih =>
    obtain ⟨k0, v0⟩ := kv
    rw [List.map_cons] at hnd
    rw [List.foldl_cons, mapSet_eq_append acc k0 v0
      (fun p hp => hfresh (k0, v0) (List.mem_cons_self _ t) p hp)]
    rw [ih (acc ++ [(k0, v0)]) (List.nodup_cons.mp hnd).2 ?hfr]
    · simp
    case hfr =>
      intro kv' hkv' p hp
      rcases List.mem_append.mp hp with hpa | hpk
      · exact hfresh kv' (List.mem_cons_of_mem _ hkv') p hpa
      · have hp1 : p = (k0, v0) := by simpa using hpk
        subst hp1
        intro hkk
        exact (List.nodup_cons.mp hnd).1
          (List.mem_map.mpr ⟨kv', hkv', hkk.symm⟩)

theorem enumFrom_map_getD_zip (names : List String) :
    ∀ (caps : List String) (k : Nat), k + caps.length = names.length →
      (caps.enumFrom k).map (fun iv => (names.getD iv.1 "undefined", iv.2)) =
        (names.drop k).zip caps := by
  intro caps
  induction caps with
  | nil => intro k hk; simp
  | cons c t ih =>
    intro k hk
    have hklt : k < names.length := by simp at hk; omega
    have hdrop : names.drop k = names.get ⟨k, hklt⟩ :: names.drop (k + 1) := by
      rw [List.drop_eq_getElem_cons hklt]
      rfl
    have hgetD : names.getD k "undefined" = names.get ⟨k, hklt⟩ := by
      rw [List.getD_eq_getElem _ _ hklt]
      rfl
    simp only [List.enumFrom, List.map_cons, hgetD, hdrop, List.zip_cons_cons]
    rw [ih (k + 1) (by simp at hk ⊢; omega)]

theorem foldl_bind_eq_foldl_map (names : List String) :
    ∀ (l : List (Nat × String)) (acc : Params),
      l.foldl (fun acc iv => mapSet acc (names.getD iv.1 "undefined") iv.2) acc =
        (l.map fun iv => (names.getD iv.1 "undefined", iv.2)).foldl
          (fun a kv => mapSet a kv.1 kv.2) acc := by
  intro l
  induction l with
  | nil => intro acc; rfl
  | cons iv t ih =>
    intro acc
    simp only [List.map_cons, List.foldl_cons]
    exact ih _

theorem bindParams_eq_zip (names caps : List String)
    (hnd : names.Nodup) (hlen : caps.length = names.length) :
    bindParams names caps = names.zip caps := by
  unfold bindParams
  rw [foldl_bind_eq_foldl_map names caps.enum []]
  have henum : (caps.enum.map fun iv => (names.getD iv.1 "undefined", iv.2)) =
      names.zip caps := by
    have h0 := enumFrom_map_getD_zip names caps 0 (by omega)
    simpa [List.enum] using h0
  rw [henum, foldl_mapSet_fresh (names.zip caps) [] ?hnd2 ?hfresh]
  · simp
  case hnd2 =>
    rw [List.map_fst_zip names caps (le_of_eq hlen.symm)]
    exact hnd
  case hfresh =>
    intro kv hkv p hp
    cases hp

theorem mapGet_zip_nodup (a : List String) :
    ∀ (b : List String) (i : Nat) (hi : i < a.length) (hib : i < b.length),
      a.Nodup → mapGet (a.zip b) (a.get ⟨i, hi⟩) = some (b.get ⟨i, hib⟩) := by
  induction a with
  | nil =>
    intro b i hi
    simp at hi
  | cons x a' ih =>
    intro b i hi hib hnd
    cases b with
    | nil => simp at hib
    | cons y b' =>
      cases i with
      | zero => simp [mapGet]
      | succ j =>
        have hj : j < a'.length := by simpa using hi
        have hjb : j < b'.length := by simpa using hib
        have hget : (x :: a').get ⟨j + 1, hi⟩ = a'.get ⟨j, hj⟩ := rfl
        have hgetb : (y :: b').get ⟨j + 1, hib⟩ = b'.get ⟨j, hjb⟩ := rfl
        have hxne : ¬x = a'.get ⟨j, hj⟩ := by
          intro hx
          exact (List.nodup_cons.mp hnd).1 (hx ▸ List.get_mem a' j hj)
        rw [List.zip_cons_cons, hget, hgetb, mapGet_cons_ne _ _ _ _ hxne]
        exact ih b' j hj hjb (List.nodup_cons.mp hnd).2

/-- A route handler that signals a stop (it neither throws nor calls
`next()`) ends the dispatch normally after the clean prefix. -/
theorem dispatchFound_route_stop {H : Type} (sem : Sem H) (ps : Params)
    (defaults hs1 : List H) (he : H) (hs2 : List H)
    (hdef : ∀ d ∈ defaults, continuesCleanly (sem d ps))
    (hpre : ∀ x ∈ hs1, continuesCleanly (sem x ps))
    (hthr : (sem he ps).thrown = none) (hnx : calledNext (sem he ps) = false) :
    dispatchFound sem ps defaults (hs1 ++ he :: hs2) =
      mkDone (accAdd (cleanFold sem ps (cleanFold sem ps ⟨[], [], []⟩ defaults) hs1)
        he (sem he ps)) := by
  rw [dispatchFound_clean_defaults sem ps defaults _ hdef]
  unfold phase3
  rw [runSeq_stop sem ps hs1 he hs2 _ hpre hthr hnx]

/-- A route handler that throws aborts the dispatch through the catch
block after the clean prefix. -/
theorem dispatchFound_route_throw {H : Type} (sem : Sem H) (ps : Params)
    (defaults hs1 : List H) (he : H) (hs2 : List H) (e : JsErr)
    (hdef : ∀ d ∈ defaults, continuesCleanly (sem d ps))
    (hpre : ∀ x ∈ hs1, continuesCleanly (sem x ps))
    (hthr : (sem he ps).thrown = some e) :
    dispatchFound sem ps defaults (hs1 ++ he :: hs2) =
      mkAbort (accAdd (cleanFold sem ps (cleanFold sem ps ⟨[], [], []⟩ defaults) hs1)
        he (sem he ps)) e := by
  rw [dispatchFound_clean_defaults sem ps defaults _ hdef]
  unfold phase3
  rw [runSeq_throw sem ps hs1 he hs2 _ e hpre hthr]

/-- A global middleware that throws — whether inside the `for` loop or as
the last default handler — aborts the dispatch through the catch block
after the clean middleware prefix, before any route handler runs. -/
theorem dispatchFound_default_throw {H : Type} (sem : Sem H) (ps : Params)
    (d1 : List H) (de : H) (d2 routes : List H) (e : JsErr)
    (hcl : ∀ x ∈ d1, continuesCleanly (sem x ps))
    (hthr : (sem de ps).thrown = some e) :
    dispatchFound sem ps (d1 ++ de :: d2) routes =
      mkAbort (accAdd (cleanFold sem ps ⟨[], [], []⟩ d1) de (sem de ps)) e := by
  rcases List.eq_nil_or_concat d2 with h2 | ⟨d2', dl, h2⟩
  · subst h2
    have htake : (d1 ++ [de]).take ((d1 ++ [de]).length - 1) = d1 := by
      simp [List.take_left]
    have hlast : (d1 ++ [de]).getLast? = some de := List.getLast?_concat ..
    simp only [dispatchFound, htake, hlast, runSeq_all_clean sem ps d1 _ hcl, hthr]
  · rw [List.concat_eq_append] at h2
    subst h2
    have hassoc : d1 ++ de :: (d2' ++ [dl]) = (d1 ++ de :: d2') ++ [dl] := by simp
    rw [hassoc]
    have hlen : ((d1 ++ de :: d2') ++ [dl]).length - 1 = (d1 ++ de :: d2').length := by
      simp
    simp only [dispatchFound, hlen, List.take_left,
      runSeq_throw sem ps d1 de d2' _ e hcl hthr]

/-! ## Lemmas about `use` -/

theorem use_router_enriched {H : Type} (P C : Router H) :
    (use P [UseArg.router C]).enrichedRoutes =
      C.enrichedRoutes.foldl (fun m kv => mapSet m kv.1 kv.2) P.enrichedRoutes := rfl

theorem use_router_base {H : Type} (P C : Router H) :
    (use P [UseArg.router C]).baseRoutes =
      C.baseRoutes.foldl (fun m kv => mapSet m kv.1 kv.2) P.baseRoutes := rfl

theorem use_handlers_defaults {H : Type} (hs : List H) :
    ∀ (Q : Router H), (use Q (hs.map UseArg.handler)).defaultHandlers =
      Q.defaultHandlers ++ hs := by
  induction hs with
  | nil => intro Q; simp [use]
  | cons h t ih =>
    intro Q
    simp only [List.map_cons, use, List.foldl_cons]
    have := ih { Q with defaultHandlers := Q.defaultHandlers ++ [h] }
    simp only [use] at this
    rw [this]
    simp

/-! ## The claims -/

/-- C1: `#findAndParse` scans the compiled route table in strict insertion
order and returns the handlers and positionally extracted parameters of
the first entry whose pattern matches the request line; concretely, with
the overlapping routes `GET /items/special` and `GET /items/:id` both
matching the line `GET /items/special`, whichever was registered first is
the one resolved. -/
theorem claim_C1_first_registered_match_wins {H : Type} (r : Router H) (url : String)
    (preL postL : List (String × EnrichedHandler H)) (p : String)
    (eh : EnrichedHandler H) (caps : List String)
    (hsplit : r.enrichedRoutes = preL ++ (p, eh) :: postL)
    (hpre : ∀ q ∈ preL, regexExec q.1 url = none)
    (hm : regexExec p url = some caps) :
    findAndParse r url = some (eh.handlers, bindParams eh.params caps)
    ∧ findAndParse rTwo "GET /items/special" = some ([1], [])
    ∧ findAndParse rTwo' "GET /items/special" = some ([2], [("id", "special")]) := by
  refine ⟨?gen, rfl, rfl⟩
  unfold findAndParse
  rw [hsplit]
  exact findList_of_prefix_no_match preL postL url p eh caps hpre hm

/-- Witness for C1: in the router whose table holds `GET /items/special`
before the compiled `GET /items/:id`, the line `GET /items/extra` skips
the non-matching first entry and resolves to the parameterized route with
`id` bound to `extra`. -/
theorem claim_C1_first_registered_match_wins_witness :
    findAndParse rTwo "GET /items/extra" = some ([2], [("id", "extra")]) := by
  have h := (claim_C1_first_registered_match_wins rTwo "GET /items/extra"
      [("GET /items/special", ⟨[1], []⟩)] [] "GET /items/([^/]+)" ⟨[2], ["id"]⟩ ["extra"]
      (by decide) (by decide) (by decide)).1
  exact h.trans (by decide)

/-- C3 is falsified on the code: `new RegExp(pattern).exec(line)` is
unanchored, so with only the literal route `GET /items` registered, the
request line `GET /items/extra` — whose path merely extends the
registered path — still resolves to that route (handler list `[5]`),
whereas the claim asserts it does not resolve. -/
theorem claim_C3_counterexample :
    findAndParse rItems "GET /items/extra" = some ([5], []) := rfl

/-- C3 amended: resolution requires the compiled pattern to match a
substring of the request line (unanchored), not the full line; a request
line matched by exactly one compiled entry resolves to that entry's
handlers and positionally bound parameters, and in particular
`GET /items/extra` against the sole registered route `GET /items` does
resolve to that route. -/
theorem claim_C3_amended {H : Type} (r : Router H) (url p : String)
    (eh : EnrichedHandler H) (caps : List String)
    (hmem : (p, eh) ∈ r.enrichedRoutes)
    (hm : regexExec p url = some caps)
    (hothers : ∀ q ∈ r.enrichedRoutes, q ≠ (p, eh) → regexExec q.1 url = none) :
    findAndParse r url = some (eh.handlers, bindParams eh.params caps)
    ∧ findAndParse rItems "GET /items/extra" = some ([5], []) :=
  ⟨findList_of_unique_match r.enrichedRoutes url p eh caps hmem hm hothers, rfl⟩

/-- Witness for C3 (amended): the line `GET /itemsfoo` also contains the
pattern `GET /items` as a substring and resolves to it. -/
theorem claim_C3_amended_witness :
    findAndParse rItems "GET /itemsfoo" = some ([5], []) := by
  have h := (claim_C3_amended rItems "GET /itemsfoo" "GET /items" ⟨[5], []⟩ []
      (by decide) (by decide) (by decide)).1
  exact h.trans (by decide)

/-- C5: whenever `#findAndParse` resolves nothing, `executeHandler`
queries `#existsWithAnotherMethod`; on a hit it emits the `405` event and
writes head 405 with `text/plain` and ends the response, otherwise it
emits `404` and writes head 404 with `text/plain` and ends the response;
concretely with only `POST /items` registered, `GET /items` yields the
405 path and `GET /nonexistent` the 404 path. -/
theorem claim_C5_fallback_405_404 {H : Type} (sem : Sem H) (r : Router H)
    (method url : String)
    (hnone : findAndParse r (jsToUpper method ++ " " ++ url) = none) :
    executeHandler sem r method url =
      (if existsWithAnotherMethod r (jsToUpper method ++ " " ++ url) then
        ⟨[Ev.methodNotAllowed], [RAct.writeHead 405 "text/plain", RAct.endResp], [], none⟩
      else ⟨[Ev.notFound], [RAct.writeHead 404 "text/plain", RAct.endResp], [], none⟩)
    ∧ executeHandler semZ rPost "GET" "/items" =
        ⟨[Ev.methodNotAllowed], [RAct.writeHead 405 "text/plain", RAct.endResp], [], none⟩
    ∧ executeHandler semZ rPost "GET" "/nonexistent" =
        ⟨[Ev.notFound], [RAct.writeHead 404 "text/plain", RAct.endResp], [], none⟩ := by
  refine ⟨?gen, rfl, rfl⟩
  simp only [executeHandler, hnone, dispatchNotFound]

/-- Witness for C5 at a further request: `PUT /stuff` against the
`POST /items`-only router matches no pattern even methodless, so the 404
branch is taken. -/
theorem claim_C5_fallback_405_404_witness :
    executeHandler semZ rPost "PUT" "/stuff" =
      ⟨[Ev.notFound], [RAct.writeHead 404 "text/plain", RAct.endResp], [], none⟩ := by
  have h := (claim_C5_fallback_405_404 semZ rPost "PUT" "/stuff" (by decide)).1
  exact h.trans (by decide)

/-- C8 is right and the code is wrong: the constructor's first statement
`if(!x && !options) return;` returns from a derived-class constructor
before `super()` runs, so `new Router()` throws a `ReferenceError`
instead of producing a usable empty router — contradicting the
constructor's own declared overloads (`constructor(prefix?: string)`,
all-optional).  The nearby intent is visible in the options path:
`new Router({})` does produce the empty router with empty route tables,
no middleware and an empty prefix. -/
theorem claim_C8_zero_arg_constructor_throws :
    constructRouter (H := Nat) none none = Except.error JsErr.referenceError
    ∧ constructRouter (H := Nat) (some (CtorArg.objArg ⟨none, none⟩)) none =
        Except.ok ⟨"", [], [], [], ⟨some false, some true⟩, none⟩ :=
  ⟨rfl, rfl⟩

/-- C9 is right and the code is wrong: the `#events` field is declared
without an initializer and never assigned, so `removeEventListener`
always throws a `TypeError` reading `findIndex` of `undefined` — even
for the no-matching-subscription case the claim describes as a no-op.
The no-op logic itself (`if(index < 0) return;`) is present and would
behave as claimed had `#events` been initialized to an array. -/
theorem claim_C9_remove_listener_no_op :
    ((constructRouter (H := Nat) (some (CtorArg.strArg "/api")) none).bind
        fun r => removeEventListener r "error" "sig") = Except.error JsErr.typeError
    ∧ (∀ (r : Router Nat) (l : List (String × String)) (event sig : String),
        r.events = some l →
        (l.findIdx? fun s => s.1 == event && s.2 == sig) = none →
        removeEventListener r event sig = Except.ok r) := by
  refine ⟨rfl, ?noop⟩
  intro r l event sig hev hidx
  simp only [removeEventListener, hev, hidx]

/-- Witness for C9: on a router state whose subscription array has been
initialized empty, removing an unknown listener is a no-op. -/
theorem claim_C9_remove_listener_no_op_witness :
    removeEventListener (⟨"", [], [], [], defaultOptions, some []⟩ : Router Nat)
      "error" "s" = Except.ok ⟨"", [], [], [], defaultOptions, some []⟩ :=
  claim_C9_remove_listener_no_op.2 ⟨"", [], [], [], defaultOptions, some []⟩ [] "error" "s"
    rfl rfl

/-- C10: in `Http2Router.executeHandler` the last-default-handler call is
not guarded, so with an empty global-middleware list a dispatch that
resolves to a route invokes `defaultHandlers[-1]` (`undefined`) as a
function: a `TypeError` is thrown, the `error` event is emitted with it,
`executeHandler` rejects with it, and no route handler ever runs — while
the HTTP/1 `Router` under the same conditions proceeds directly to the
route-handler loop. -/
theorem claim_C10_http2_empty_middleware_type_error {H : Type} (sem : Sem H)
    (r : Router H) (method url : String) (hs : List H) (ps : Params)
    (hdef : r.defaultHandlers = [])
    (hres : findAndParse r (jsToUpper method ++ " " ++ url) = some (hs, ps)) :
    executeHandler2 sem r method url =
      ⟨[Ev.error JsErr.typeError], [], [], some JsErr.typeError⟩
    ∧ executeHandler sem r method url = phase3 sem ps ⟨[], [], []⟩ hs := by
  constructor
  · simp only [executeHandler2, hres, dispatchFound2, hdef]
    rfl
  · simp only [executeHandler, hres, dispatchFound, hdef]
    rfl

/-- Witness for C10: on the middleware-less router with route `GET /a`,
the HTTP/2 dispatch rejects with a `TypeError` having executed nothing,
while the HTTP/1 dispatch executes the route handler and resolves. -/
theorem claim_C10_http2_empty_middleware_type_error_witness :
    executeHandler2 semZ rA "GET" "/a" =
      ⟨[Ev.error JsErr.typeError], [], [], some JsErr.typeError⟩
    ∧ executeHandler semZ rA "GET" "/a" = ⟨[], [], [3], none⟩ := by
  have h := claim_C10_http2_empty_middleware_type_error semZ rA "GET" "/a" [3] []
    rfl (by decide)
  exact ⟨h.1, h.2.trans (by decide)⟩

/-- C2 is falsified on the code: with the global middlewares `[0, 1]` and
the route handler `2` registered for `GET /x`, middleware `0` calls
`next(custom 7)`; the claim says every remaining handler is skipped, but
the executed-handler trace is `[0, 1, 2]` — the `break` only leaves the
loop over `defaultHandlers[0 .. length-2]`, after which the last global
middleware is invoked unconditionally and, calling `next()`, lets all the
route handlers run as well. -/
theorem claim_C2_next_error_counterexample :
    (executeHandler semC2 rC2 "GET" "/x").executed = [0, 1, 2]
    ∧ (executeHandler semC2 rC2 "GET" "/x").events = [Ev.error (JsErr.custom 7)] :=
  ⟨rfl, rfl⟩

/-- C2 amended: `next(error)` emits one `error` event with that error and
`executeHandler` resolves without rejecting, but which handlers are
skipped depends on the position.  A *route handler* calling `next(error)`
(after clean middlewares and clean preceding route handlers) skips every
remaining route handler: exactly the handlers up to and including it
execute.  The *last global middleware* calling `next(error)` skips the
route handlers (trace `[0, 1]` in the concrete router).  A *non-last
global middleware* calling `next(error)`, however, only breaks the
middleware loop: the last global middleware still executes and, when it
calls `next()`, so do the route handlers (trace `[0, 1, 2]`). -/
theorem claim_C2_next_error_amended {H : Type} (sem : Sem H) (r : Router H)
    (method url : String) (hs hs1 hs2 : List H) (he : H) (ps : Params) (e : JsErr)
    (hres : findAndParse r (jsToUpper method ++ " " ++ url) = some (hs, ps))
    (hhs : hs = hs1 ++ he :: hs2)
    (hdef : ∀ d ∈ r.defaultHandlers, continuesCleanly (sem d ps))
    (hpre : ∀ x ∈ hs1, continuesCleanly (sem x ps))
    (hnx : (sem he ps).nexts = [some e])
    (hthr : (sem he ps).thrown = none) :
    ((executeHandler sem r method url).events = [Ev.error e]
      ∧ (executeHandler sem r method url).executed = r.defaultHandlers ++ hs1 ++ [he]
      ∧ (executeHandler sem r method url).rejected = none)
    ∧ executeHandler semC2b rC2 "GET" "/x" =
        ⟨[Ev.error (JsErr.custom 8)], [], [0, 1], none⟩
    ∧ ((executeHandler semC2 rC2 "GET" "/x").executed = [0, 1, 2]
      ∧ (executeHandler semC2 rC2 "GET" "/x").rejected = none) := by
  refine ⟨?gen, rfl, rfl, rfl⟩
  have hEH : executeHandler sem r method url = dispatchFound sem ps r.defaultHandlers hs := by
    simp only [executeHandler, hres]
  have hcn : calledNext (sem he ps) = false := by
    simp [calledNext, hnx]
  have hne : nextErrors (sem he ps) = [Ev.error e] := by
    simp [nextErrors, hnx]
  subst hhs
  rw [hEH, dispatchFound_route_stop sem ps r.defaultHandlers hs1 he hs2 hdef hpre hthr hcn]
  refine ⟨?ev, ?ex, rfl⟩
  case ev =>
    show (cleanFold sem ps (cleanFold sem ps ⟨[], [], []⟩ r.defaultHandlers) hs1).events
        ++ nextErrors (sem he ps) = [Ev.error e]
    rw [cleanFold_events sem ps _ hs1 (fun x hx => (hpre x hx).1),
      cleanFold_events sem ps _ r.defaultHandlers (fun d hd => (hdef d hd).1), hne]
    rfl
  case ex =>
    show (cleanFold sem ps (cleanFold sem ps ⟨[], [], []⟩ r.defaultHandlers) hs1).executed
        ++ [he] = r.defaultHandlers ++ hs1 ++ [he]
    rw [cleanFold_executed, cleanFold_executed]
    simp

/-- Witness for C2 (amended): with no middleware and the single route
handler `3` of `GET /a` calling `next(custom 5)`, only handler `3`
executes, one `error` event with `custom 5` fires, and the dispatch
resolves. -/
theorem claim_C2_next_error_amended_witness :
    (executeHandler semNx5 rA "GET" "/a").events = [Ev.error (JsErr.custom 5)]
    ∧ (executeHandler semNx5 rA "GET" "/a").executed = [3]
    ∧ (executeHandler semNx5 rA "GET" "/a").rejected = none := by
  have h := (claim_C2_next_error_amended semNx5 rA "GET" "/a" [3] [] [] 3 []
      (JsErr.custom 5) (by decide) rfl (by simp [rA, emptyR, addRoute])
      (by simp) rfl rfl).1
  exact ⟨h.1, h.2.1.trans (by decide), h.2.2⟩

/-- C4: parameter values are bound positionally — the `i`-th captured
group is stored under the `i`-th parameter name of the template,
whatever the names are; and the concrete scenario holds: registering
`GET /users/:id` with a handler replying `json({id: params.id})` and
dispatching `GET /users/42` binds `id` to `"42"` and writes the JSON
body with the JSON content type, resolving normally. -/
theorem claim_C4_positional_binding (names caps : List String) (i : Nat)
    (hnd : names.Nodup) (hlen : caps.length = names.length) (hi : i < names.length) :
    mapGet (bindParams names caps) (names.get ⟨i, hi⟩) =
      some (caps.get ⟨i, by omega⟩)
    ∧ (executeHandler sem4 r4 "GET" "/users/42").racts =
        [RAct.setHeader "Content-Type" "application/json; charset=UTF-8",
         RAct.write "\x7b\"id\":\"42\"\x7d"]
    ∧ (executeHandler sem4 r4 "GET" "/users/42").rejected = none := by
  refine ⟨?gen, rfl, rfl⟩
  rw [bindParams_eq_zip names caps hnd hlen]
  exact mapGet_zip_nodup names caps i hi (by omega) hnd

/-- Witness for C4: binding `["a", "b"]` to captures `["1", "2"]` maps the
second name to the second capture. -/
theorem claim_C4_positional_binding_witness :
    mapGet (bindParams ["a", "b"] ["1", "2"]) "b" = some "2" := by
  have h := (claim_C4_positional_binding ["a", "b"] ["1", "2"] 1 (by decide) rfl
    (by decide)).1
  exact h

/-- C6: a handler whose execution throws (rejects) with `e` — at any
position among the route handlers after a clean prefix, or at any
position among the global middlewares after a clean prefix — makes
`executeHandler` emit the `error` event carrying `e` as the final emitted
event and reject with that same `e`; the event is recorded in the trace
before the rejection is returned. -/
theorem claim_C6_thrown_error_emits_then_rejects {H : Type} (sem : Sem H) (r : Router H)
    (method url : String) (hs : List H) (ps : Params) (e : JsErr)
    (hres : findAndParse r (jsToUpper method ++ " " ++ url) = some (hs, ps)) :
    (∀ hs1 he hs2, hs = hs1 ++ he :: hs2 →
      (∀ d ∈ r.defaultHandlers, continuesCleanly (sem d ps)) →
      (∀ x ∈ hs1, continuesCleanly (sem x ps)) →
      (sem he ps).thrown = some e →
      (executeHandler sem r method url).rejected = some e
      ∧ (executeHandler sem r method url).events.getLast? = some (Ev.error e))
    ∧ (∀ d1 de d2, r.defaultHandlers = d1 ++ de :: d2 →
      (∀ x ∈ d1, continuesCleanly (sem x ps)) →
      (sem de ps).thrown = some e →
      (executeHandler sem r method url).rejected = some e
      ∧ (executeHandler sem r method url).events.getLast? = some (Ev.error e)) := by
  have hEH : executeHandler sem r method url = dispatchFound sem ps r.defaultHandlers hs := by
    simp only [executeHandler, hres]
  constructor
  · intro hs1 he hs2 hhs hdef hpre hthr
    subst hhs
    rw [hEH, dispatchFound_route_throw sem ps r.defaultHandlers hs1 he hs2 e hdef hpre hthr]
    exact ⟨rfl, List.getLast?_concat ..⟩
  · intro d1 de d2 hd hcl hthr
    rw [hEH, hd, dispatchFound_default_throw sem ps d1 de d2 hs e hcl hthr]
    exact ⟨rfl, List.getLast?_concat ..⟩

/-- Witness for C6: route handler `3` of `GET /a` throws `custom 9`; the
dispatch rejects with `custom 9` and the last emitted event is the
`error` event carrying it. -/
theorem claim_C6_thrown_error_emits_then_rejects_witness :
    (executeHandler sem6 rA "GET" "/a").rejected = some (JsErr.custom 9)
    ∧ (executeHandler sem6 rA "GET" "/a").events.getLast? =
        some (Ev.error (JsErr.custom 9)) := by
  exact (claim_C6_thrown_error_emits_then_rejects sem6 rA "GET" "/a" [3] []
      (JsErr.custom 9) (by decide)).1 [] 3 [] rfl (by simp [rA, emptyR, addRoute])
    (by simp) rfl

/-- C7: `use` with a child router merges the child's compiled and raw
route tables into the parent with `Map.set`, so every key present in the
child is afterwards present in the parent with the *child's* (the later
merge source's) value — in particular a colliding compiled key ends up
with the child's handlers; and `use` with plain handler arguments appends
them in order to the parent's global middleware list. -/
theorem claim_C7_use_merges_routes_and_middleware {H : Type} (P C : Router H)
    (hs : List H)
    (hndE : (C.enrichedRoutes.map Prod.fst).Nodup)
    (hndB : (C.baseRoutes.map Prod.fst).Nodup) :
    (∀ k eh, mapGet C.enrichedRoutes k = some eh →
      mapGet (use P [UseArg.router C]).enrichedRoutes k = some eh)
    ∧ (∀ k hl, mapGet C.baseRoutes k = some hl →
      mapGet (use P [UseArg.router C]).baseRoutes k = some hl)
    ∧ (use P (hs.map UseArg.handler)).defaultHandlers = P.defaultHandlers ++ hs := by
  refine ⟨?enr, ?base, use_handlers_defaults hs P⟩
  case enr =>
    intro k eh hk
    rw [use_router_enriched]
    exact mapGet_foldl_set C.enrichedRoutes k eh hndE hk P.enrichedRoutes
  case base =>
    intro k hl hk
    rw [use_router_base]
    exact mapGet_foldl_set C.baseRoutes k hl hndB hk P.baseRoutes

/-- Witness for C7: the parent `rP7` and child `rC7` both register
`GET /p`; after `rP7.use(rC7)` the compiled key `GET /p` holds the
child's handler list `[7]`, the child-only key `GET /c` is reachable,
and plain handlers `4, 5` append to the middleware list in order. -/
theorem claim_C7_use_merges_routes_and_middleware_witness :
    mapGet (use rP7 [UseArg.router rC7]).enrichedRoutes "GET /p" = some ⟨[7], []⟩
    ∧ mapGet (use rP7 [UseArg.router rC7]).enrichedRoutes "GET /c" = some ⟨[8], []⟩
    ∧ (use rP7 ([4, 5].map UseArg.handler)).defaultHandlers = [4, 5] := by
  have h := claim_C7_use_merges_routes_and_middleware rP7 rC7 [4, 5]
    (by decide) (by decide)
  exact ⟨h.1 "GET /p" ⟨[7], []⟩ (by decide), h.1 "GET /c" ⟨[8], []⟩ (by decide),
    (h.2.2).trans (by decide)⟩

end HttpFlash
